import Mathlib

/-!
Verification of the integration-test platform harness of `hass-mqtt-bridge`
(`end-to-end-testing/fixtures/test-platform.ts`).

Strings are modelled as `List Char`.  The `TestPlatform` class is modelled as a
record of its mutable fields; its lifecycle and the asynchronous log-stream
"data" callbacks are modelled as a step function over events.  JavaScript
`RegExp` values (whose `test` method is stateful through `lastIndex`) are
modelled by the `JSRegExp` structure.
-/

/-- JavaScript whitespace, the class matched by `\s` and removed by
`String.prototype.trim` (WhiteSpace ∪ LineTerminator). -/
def isJsSpace (c : Char) : Bool :=
  c = ' ' || c = '\t' || c = '\n' || c = '\u000b' || c = '\u000c' || c = '\r' ||
  c = ' ' || c = ' ' ||
  (' ' ≤ c && c ≤ ' ') ||
  c = ' ' || c = ' ' || c = ' ' || c = ' ' ||
  c = '　' || c = '﻿'

/-- JavaScript line terminators, which `.` (without the `s` flag) does not match. -/
def isJsLineTerminator (c : Char) : Bool :=
  c = '\n' || c = '\r' || c = ' ' || c = ' '

/-- `String.prototype.trim`: removes leading and trailing JS whitespace. -/
def jsTrim (l : List Char) : List Char :=
  ((l.dropWhile isJsSpace).reverse.dropWhile isJsSpace).reverse

/-- The trimming described by the spec sentence "trims trailing
line-terminators/whitespace".  Modelled from the spec: removes whitespace only
from the end of the line, unlike the source's `line.trim()`. -/
def jsTrimEnd (l : List Char) : List Char :=
  (l.reverse.dropWhile isJsSpace).reverse

/-- Character class `[a-zA-Z0-9-_.]` of the entity-identifier capture group. -/
def isIdentChar (c : Char) : Bool :=
  ('a' ≤ c && c ≤ 'z') || ('A' ≤ c && c ≤ 'Z') || ('0' ≤ c && c ≤ '9') ||
  c = '-' || c = '_' || c = '.'

/-- Match a literal run of characters; returns the remaining input. -/
def dropLit : List Char → List Char → Option (List Char)
  | [], rest => some rest
  | _ :: _, [] => none
  | c :: cs, d :: ds => if c = d then dropLit cs ds else none

/-- Match `.`: any single character that is not a line terminator. -/
def dropDot : List Char → Option (List Char)
  | [] => none
  | c :: cs => if isJsLineTerminator c then none else some cs

def litInfoHead : List Char := "INFO (MainThread) [homeassistant".data
def litHelpers : List Char := "helpers".data
def litRegistry : List Char := "entity_registry] Registered new ".data
def litEntitySep : List Char := " entity: ".data

/-- One attempt of the entity-registration regular expression
`INFO \(MainThread\) \[homeassistant.helpers.entity_registry\] Registered new (\S+) entity: ([a-zA-Z0-9-_.]+)`
at a fixed start position: returns the two capture groups (entity kind,
entity identifier) on success.  `(\S+)` is greedy; since the character after it
in the pattern is a space, which `\S` can never match, the group matches
exactly the maximal non-whitespace run, and similarly the trailing
`([a-zA-Z0-9-_.]+)` matches the maximal identifier-character run. -/
def matchEntityAt (l : List Char) : Option (List Char × List Char) :=
  match dropLit litInfoHead l with
  | none => none
  | some r1 =>
    match dropDot r1 with
    | none => none
    | some r2 =>
      match dropLit litHelpers r2 with
      | none => none
      | some r3 =>
        match dropDot r3 with
        | none => none
        | some r4 =>
          match dropLit litRegistry r4 with
          | none => none
          | some r5 =>
            match r5.takeWhile (fun c => !(isJsSpace c)) with
            | [] => none
            | k0 :: ks =>
              match dropLit litEntitySep (r5.dropWhile (fun c => !(isJsSpace c))) with
              | none => none
              | some r6 =>
                match r6.takeWhile isIdentChar with
                | [] => none
                | c0 :: cs => some (k0 :: ks, c0 :: cs)

/-- `RegExp.prototype.exec` of the entity-registration pattern: tries each
start position from the left and returns the captures of the leftmost match. -/
def entityRegistryExec : List Char → Option (List Char × List Char)
  | [] => none
  | c :: rest =>
    match matchEntityAt (c :: rest) with
    | some parts => some parts
    | none => entityRegistryExec rest

/-- The mutable fields of the `TestPlatform` class. -/
structure TestPlatform where
  environment : Option Nat
  mosquittoMessages : List (List Char)
  registeredEntities : List (List Char)
deriving DecidableEq

/-- A freshly constructed `TestPlatform`: no environment, empty accumulators. -/
def initialTestPlatform : TestPlatform :=
  { environment := none, mosquittoMessages := [], registeredEntities := [] }

/-- The home-assistant log "data" callback attached by `up()`: run the
registration regex against the trimmed line and append the captured identifier
when it is non-empty and not already present. -/
def onHomeAssistantLine (entities : List (List Char)) (line : List Char) :
    List (List Char) :=
  match entityRegistryExec (jsTrim line) with
  | some parts =>
    let entityName := parts.2
    if entityName ≠ [] ∧ entityName ∉ entities then entities ++ [entityName]
    else entities
  | none => entities

/-- The mosquitto-debug log "data" callback attached by `up()`: push the
trimmed line, unconditionally. -/
def onMosquittoLine (messages : List (List Char)) (line : List Char) :
    List (List Char) :=
  messages ++ [jsTrim line]

/-- Events driving a `TestPlatform`: completion of `up()` (with the fresh
stack's handle), a call to `down()`, and deliveries of log lines to the two
attached watchers. -/
inductive PlatformEvent where
  | upCompleted (envId : Nat)
  | downCalled
  | homeAssistantLine (line : List Char)
  | mosquittoLine (line : List Char)
deriving DecidableEq

/-- A `TestPlatform` together with ghost counters for the externally visible
container operations: how many stacks `dockerCompose.up()` started and how many
times `environment.down()` tore one down. -/
structure World where
  platform : TestPlatform
  stacksStarted : Nat
  teardownsPerformed : Nat
deriving DecidableEq

def initialWorld : World :=
  { platform := initialTestPlatform, stacksStarted := 0, teardownsPerformed := 0 }

/-- One step of the platform.  `up()` unconditionally starts a stack and
overwrites `this.environment`.  `down()` calls `this.environment?.down(...)`
(a teardown happens only when a handle is present), then sets
`this.environment = null` and `this.registeredEntities.length = 0`; it never
touches `mosquittoMessages`. -/
def stepWorld (w : World) : PlatformEvent → World
  | .upCompleted envId =>
    { platform := { w.platform with environment := some envId },
      stacksStarted := w.stacksStarted + 1,
      teardownsPerformed := w.teardownsPerformed }
  | .downCalled =>
    { platform := { w.platform with environment := none, registeredEntities := [] },
      stacksStarted := w.stacksStarted,
      teardownsPerformed :=
        w.teardownsPerformed + (if w.platform.environment.isSome then 1 else 0) }
  | .homeAssistantLine line =>
    { w with platform :=
        { w.platform with
          registeredEntities := onHomeAssistantLine w.platform.registeredEntities line } }
  | .mosquittoLine line =>
    { w with platform :=
        { w.platform with
          mosquittoMessages := onMosquittoLine w.platform.mosquittoMessages line } }

def runEvents (w : World) (es : List PlatformEvent) : World :=
  es.foldl stepWorld w

/-- A JavaScript `RegExp` value: its `global`/`sticky` flags, its mutable
`lastIndex`, and the engine's search primitive (start index and input to
optional match start/end offsets). -/
structure JSRegExp where
  global : Bool
  sticky : Bool
  searchFrom : Nat → List Char → Option (Nat × Nat)
  lastIndex : Nat

/-- `RegExp.prototype.test`.  Without `g`/`y` the search starts at 0 and
`lastIndex` is untouched; with `g` or `y` the search starts at `lastIndex`,
which is advanced past the match on success and reset to 0 on failure (a
sticky match must in addition start exactly at `lastIndex`). -/
def JSRegExp.test (r : JSRegExp) (input : List Char) : Bool × JSRegExp :=
  if r.global || r.sticky then
    match r.searchFrom r.lastIndex input with
    | some (ms, me) =>
      if r.sticky && ms != r.lastIndex then (false, { r with lastIndex := 0 })
      else (true, { r with lastIndex := me })
    | none => (false, { r with lastIndex := 0 })
  else ((r.searchFrom 0 input).isSome, r)

/-- Whether `r` matches `input` when searched from position 0 (the meaning of
`r.test` for a flagless pattern). -/
def JSRegExp.matches0 (r : JSRegExp) (input : List Char) : Bool :=
  (r.searchFrom 0 input).isSome

/-- `Array.prototype.filter` with the stateful predicate `name => pattern.test(name)`,
threading the `RegExp` state left to right. -/
def filterWithTest (r : JSRegExp) : List (List Char) → List (List Char) × JSRegExp
  | [] => ([], r)
  | name :: rest =>
    let out := r.test name
    let tail := filterWithTest out.2 rest
    (if out.1 then name :: tail.1 else tail.1, tail.2)

/-- `countRegisteredEntities(pattern)`: length of the filtered entity list,
together with the pattern state after the call. -/
def countRegisteredEntities (p : TestPlatform) (r : JSRegExp) : Nat × JSRegExp :=
  let out := filterWithTest r p.registeredEntities
  (out.1.length, out.2)

/-- The value produced by `getMosquittoMessages()` (its contents; aliasing is
modelled separately by `getMosquittoMessagesAlloc`). -/
def getMosquittoMessages (p : TestPlatform) : List (List Char) :=
  p.mosquittoMessages

/-- The value of `this.registeredEntities` after delivering a list of
home-assistant log lines to a fresh platform. -/
def registeredAfter (ls : List (List Char)) : List (List Char) :=
  (runEvents initialWorld (ls.map PlatformEvent.homeAssistantLine)).platform.registeredEntities

/-- The platform state after delivering a list of home-assistant log lines to a
fresh platform (an `up()` that produced only those lines). -/
def platformAfter (ls : List (List Char)) : TestPlatform :=
  (runEvents initialWorld (ls.map PlatformEvent.homeAssistantLine)).platform

/-- The identifier captured by the registration regex from a line, if any. -/
def extractedEntity (line : List Char) : Option (List Char) :=
  (entityRegistryExec (jsTrim line)).map Prod.snd

/-- All identifiers captured from a sequence of lines, in arrival order. -/
def extractedNames (lines : List (List Char)) : List (List Char) :=
  lines.filterMap extractedEntity

section Dedup

variable {β : Type*} [DecidableEq β]

/-- Append an element unless it is already present (the body of the
entity-registration callback, abstracted over the extracted identifier). -/
def insertNew (acc : List β) (x : β) : List β :=
  if x ∈ acc then acc else acc ++ [x]

/-- Fold `insertNew` over a list of extracted identifiers. -/
def accumulate (acc : List β) (xs : List β) : List β :=
  xs.foldl insertNew acc

/-- `firstBefore A B xs`: the first occurrence of `A` in `xs` is strictly
before the first occurrence of `B` (both occur). -/
def firstBefore (A B : β) : List β → Prop
  | [] => False
  | x :: xs => (x = A ∧ B ∈ xs) ∨ (x ≠ A ∧ x ≠ B ∧ firstBefore A B xs)

end Dedup

/-- A heap of string arrays; a JavaScript array value is a reference (index)
into it.  Models the aliasing behaviour of `getMosquittoMessages`. -/
structure ArrayStore where
  arrays : List (List (List Char))
deriving DecidableEq

/-- Allocate a fresh array holding `v`; returns the new store and the fresh
reference. -/
def ArrayStore.alloc (st : ArrayStore) (v : List (List Char)) : ArrayStore × Nat :=
  (⟨st.arrays ++ [v]⟩, st.arrays.length)

/-- Dereference an array. -/
def ArrayStore.read (st : ArrayStore) (r : Nat) : List (List Char) :=
  st.arrays.getD r []

/-- Mutate the array behind a reference. -/
def ArrayStore.write (st : ArrayStore) (r : Nat) (v : List (List Char)) : ArrayStore :=
  ⟨st.arrays.set r v⟩

/-- `getMosquittoMessages()` in the store model: `return [...this.mosquittoMessages]`
allocates a fresh array holding a copy of the log's contents (`msgRef` is the
reference held in `this.mosquittoMessages`). -/
def getMosquittoMessagesAlloc (st : ArrayStore) (msgRef : Nat) : ArrayStore × Nat :=
  st.alloc (st.read msgRef)

/-- A home-assistant entity-registration log line for the given kind and
identifier. -/
def regLine (kind name : String) : List Char :=
  ("INFO (MainThread) [homeassistant.helpers.entity_registry] Registered new "
    ++ kind ++ " entity: " ++ name).data

/-- The spec's scenario input: a registration line for each of
`sensor.rika_a` … `sensor.rika_l`, with `sensor.rika_a` logged twice. -/
def rikaScenarioLines : List (List Char) :=
  [regLine "sensor" "sensor.rika_a", regLine "sensor" "sensor.rika_a",
   regLine "sensor" "sensor.rika_b", regLine "sensor" "sensor.rika_c",
   regLine "sensor" "sensor.rika_d", regLine "sensor" "sensor.rika_e",
   regLine "sensor" "sensor.rika_f", regLine "sensor" "sensor.rika_g",
   regLine "sensor" "sensor.rika_h", regLine "sensor" "sensor.rika_i",
   regLine "sensor" "sensor.rika_j", regLine "sensor" "sensor.rika_k",
   regLine "sensor" "sensor.rika_l"]

/-- The flagless pattern `/^sensor\.rika_/`: anchored at the string start, it
matches exactly when the input starts with `sensor.rika_`. -/
def rikaPattern : JSRegExp :=
  { global := false, sticky := false, lastIndex := 0,
    searchFrom := fun i input =>
      if i == 0 && "sensor.rika_".data.isPrefixOf input then some (0, 12) else none }

/-- A concrete prior-run trace: `up()`, one mosquitto message, then `down()`. -/
def staleRun : World :=
  runEvents initialWorld
    [PlatformEvent.upCompleted 0,
     PlatformEvent.mosquittoLine "homeassistant/status online".data,
     PlatformEvent.downCalled]

/-- A one-array store whose reference 0 plays the role of
`this.mosquittoMessages`. -/
def demoStore : ArrayStore :=
  ⟨[["homeassistant/status online".data]]⟩

/-- Concrete lines where `sensor.rika_b` is first seen before `sensor.rika_a`
and later duplicated. -/
def c4Lines : List (List Char) :=
  [regLine "sensor" "sensor.rika_b", regLine "sensor" "sensor.rika_a",
   regLine "sensor" "sensor.rika_b"]

/-- Concrete lines mixing two extracted identifiers, one duplicated. -/
def c3Lines : List (List Char) :=
  [regLine "sensor" "sensor.rika_a", regLine "light" "other_light",
   regLine "sensor" "sensor.rika_a"]

/-- A platform state holding two registered entities. -/
def c9Platform : TestPlatform :=
  { environment := some 0, mosquittoMessages := [],
    registeredEntities := ["sensor.rika_x".data, "other".data] }

/-! ### Helper lemmas -/

theorem matchEntityAt_name_ne_nil {l : List Char} {k n : List Char}
    (h : matchEntityAt l = some (k, n)) : n ≠ [] := by
  unfold matchEntityAt at h
  repeat' split at h
  all_goals first
    | exact Option.noConfusion h
    | (cases h; simp)

theorem entityRegistryExec_name_ne_nil :
    ∀ {l k n : List Char}, entityRegistryExec l = some (k, n) → n ≠ [] := by
  intro l
  induction l with
  | nil => intro k n h; simp [entityRegistryExec] at h
  | cons c rest ih =>
    intro k n h
    rw [entityRegistryExec] at h
    split at h
    · rename_i parts hm
      cases h
      exact matchEntityAt_name_ne_nil hm
    · exact ih h

theorem onHomeAssistantLine_eq (acc : List (List Char)) (line : List Char) :
    onHomeAssistantLine acc line = (extractedEntity line).elim acc (insertNew acc) := by
  unfold onHomeAssistantLine extractedEntity insertNew
  cases h : entityRegistryExec (jsTrim line) with
  | none => simp
  | some parts =>
    obtain ⟨k, n⟩ := parts
    have hne : n ≠ [] := entityRegistryExec_name_ne_nil h
    by_cases hmem : n ∈ acc <;> simp [Option.elim, hmem, hne]

theorem foldl_onHomeAssistantLine (ls : List (List Char)) :
    ∀ acc, ls.foldl onHomeAssistantLine acc = accumulate acc (extractedNames ls) := by
  induction ls with
  | nil => intro acc; rfl
  | cons line rest ih =>
    intro acc
    rw [List.foldl_cons, onHomeAssistantLine_eq]
    cases h : extractedEntity line with
    | none =>
      simp only [Option.elim]
      rw [ih]
      simp [extractedNames, List.filterMap_cons, h, accumulate]
    | some n =>
      simp only [Option.elim]
      rw [ih]
      simp [extractedNames, List.filterMap_cons, h, accumulate]

theorem runEvents_cons (w : World) (e : PlatformEvent) (es : List PlatformEvent) :
    runEvents w (e :: es) = runEvents (stepWorld w e) es := rfl

theorem runEvents_haLines (ls : List (List Char)) :
    ∀ w : World, runEvents w (ls.map PlatformEvent.homeAssistantLine) =
      { w with platform :=
        { w.platform with
          registeredEntities := ls.foldl onHomeAssistantLine w.platform.registeredEntities } } := by
  induction ls with
  | nil => intro w; rfl
  | cons line rest ih =>
    intro w
    rw [List.map_cons, runEvents_cons, ih]
    rfl

theorem runEvents_mqLines (ls : List (List Char)) :
    ∀ w : World, runEvents w (ls.map PlatformEvent.mosquittoLine) =
      { w with platform :=
        { w.platform with
          mosquittoMessages := w.platform.mosquittoMessages ++ ls.map jsTrim } } := by
  induction ls with
  | nil => intro w; simp [runEvents]
  | cons line rest ih =>
    intro w
    rw [List.map_cons, runEvents_cons, ih]
    simp [stepWorld, onMosquittoLine]

theorem registeredAfter_eq (ls : List (List Char)) :
    registeredAfter ls = accumulate [] (extractedNames ls) := by
  rw [registeredAfter, runEvents_haLines]
  exact foldl_onHomeAssistantLine ls []

theorem platformAfter_registeredEntities (ls : List (List Char)) :
    (platformAfter ls).registeredEntities = registeredAfter ls := by
  rw [platformAfter, registeredAfter]

section DedupLemmas

variable {β : Type*} [DecidableEq β]

theorem mem_insertNew {acc : List β} {x y : β} :
    y ∈ insertNew acc x ↔ y ∈ acc ∨ y = x := by
  unfold insertNew
  split
  · rename_i hx
    constructor
    · exact Or.inl
    · rintro (hy | rfl)
      · exact hy
      · exact hx
  · simp

theorem self_mem_insertNew {acc : List β} {x : β} : x ∈ insertNew acc x := by
  unfold insertNew
  split
  · assumption
  · simp

theorem nodup_insertNew {acc : List β} {x : β} (h : acc.Nodup) :
    (insertNew acc x).Nodup := by
  unfold insertNew
  split
  · exact h
  · rename_i hx
    simp [List.nodup_append, h, hx]

theorem mem_accumulate {xs : List β} :
    ∀ {acc : List β} {y : β}, y ∈ accumulate acc xs ↔ y ∈ acc ∨ y ∈ xs := by
  induction xs with
  | nil => intro acc y; simp [accumulate]
  | cons x rest ih =>
    intro acc y
    show y ∈ accumulate (insertNew acc x) rest ↔ _
    rw [ih, mem_insertNew]
    simp only [List.mem_cons]
    tauto

theorem nodup_accumulate {xs : List β} :
    ∀ {acc : List β}, acc.Nodup → (accumulate acc xs).Nodup := by
  induction xs with
  | nil => intro acc h; exact h
  | cons x rest ih =>
    intro acc h
    exact ih (nodup_insertNew h)

theorem accumulate_append_split (xs : List β) :
    ∀ acc : List β, ∃ t, accumulate acc xs = acc ++ t := by
  induction xs with
  | nil => intro acc; exact ⟨[], (List.append_nil acc).symm⟩
  | cons x rest ih =>
    intro acc
    by_cases hx : x ∈ acc
    · obtain ⟨t, ht⟩ := ih acc
      refine ⟨t, ?_⟩
      show accumulate (insertNew acc x) rest = acc ++ t
      simp only [insertNew, if_pos hx]
      exact ht
    · obtain ⟨t, ht⟩ := ih (acc ++ [x])
      refine ⟨[x] ++ t, ?_⟩
      show accumulate (insertNew acc x) rest = acc ++ ([x] ++ t)
      simp only [insertNew, if_neg hx]
      rw [ht, List.append_assoc]

theorem accumulate_extends (xs acc : List β) : acc <+: accumulate acc xs := by
  obtain ⟨t, ht⟩ := accumulate_append_split xs acc
  exact ⟨t, ht.symm⟩

theorem firstBefore_of_indexOf {A B : β} (hAB : A ≠ B) :
    ∀ {xs : List β}, A ∈ xs → B ∈ xs → xs.indexOf A < xs.indexOf B →
      firstBefore A B xs := by
  intro xs
  induction xs with
  | nil => intro hA; cases hA
  | cons x rest ih =>
    intro hA hB hlt
    by_cases hxA : x = A
    · left
      refine ⟨hxA, ?_⟩
      rcases List.mem_cons.mp hB with rfl | hBrest
      · exact absurd hxA (by intro h2; exact hAB h2.symm)
      · exact hBrest
    · right
      have hxB : x ≠ B := by
        intro h2
        subst h2
        rw [List.indexOf_cons_self] at hlt
        exact Nat.not_lt_zero _ hlt
      refine ⟨hxA, hxB, ih ?_ ?_ ?_⟩
      · rcases List.mem_cons.mp hA with rfl | h2
        · exact absurd rfl hxA
        · exact h2
      · rcases List.mem_cons.mp hB with rfl | h2
        · exact absurd rfl hxB
        · exact h2
      · rw [List.indexOf_cons_ne _ hxA, List.indexOf_cons_ne _ hxB] at hlt
        exact Nat.lt_of_succ_lt_succ hlt

theorem accumulate_pair_sublist {A B : β} (hAB : A ≠ B) :
    ∀ (xs acc : List β), B ∉ acc →
      ((A ∈ acc ∧ B ∈ xs) ∨ firstBefore A B xs) →
      List.Sublist [A, B] (accumulate acc xs) := by
  intro xs
  induction xs with
  | nil =>
    rintro acc hBacc (⟨_, hBx⟩ | hfb)
    · cases hBx
    · exact hfb.elim
  | cons x rest ih =>
    rintro acc hBacc (⟨hAacc, hBx⟩ | hfb)
    · by_cases hxB : x = B
      · subst hxB
        have hstep : accumulate acc (x :: rest) = accumulate (acc ++ [x]) rest := by
          show accumulate (insertNew acc x) rest = _
          rw [insertNew, if_neg hBacc]
        rw [hstep]
        obtain ⟨t, ht⟩ := accumulate_append_split rest (acc ++ [x])
        rw [ht]
        have h1 : List.Sublist [A] acc := List.singleton_sublist.mpr hAacc
        have h2 : List.Sublist ([A] ++ [x]) (acc ++ [x]) := h1.append (List.Sublist.refl _)
        exact h2.trans (List.sublist_append_left _ _)
      · have hBrest : B ∈ rest := by
          rcases List.mem_cons.mp hBx with rfl | h2
          · exact absurd rfl hxB
          · exact h2
        show List.Sublist [A, B] (accumulate (insertNew acc x) rest)
        apply ih (insertNew acc x)
        · intro hBin
          rcases mem_insertNew.mp hBin with h2 | rfl
          · exact hBacc h2
          · exact hxB rfl
        · exact Or.inl ⟨mem_insertNew.mpr (Or.inl hAacc), hBrest⟩
    · rcases hfb with ⟨rfl, hBrest⟩ | ⟨hxA, hxB, hfb1⟩
      · show List.Sublist [x, B] (accumulate (insertNew acc x) rest)
        apply ih (insertNew acc x)
        · intro hBin
          rcases mem_insertNew.mp hBin with h2 | rfl
          · exact hBacc h2
          · exact hAB rfl
        · exact Or.inl ⟨self_mem_insertNew, hBrest⟩
      · show List.Sublist [A, B] (accumulate (insertNew acc x) rest)
        apply ih (insertNew acc x)
        · intro hBin
          rcases mem_insertNew.mp hBin with h2 | rfl
          · exact hBacc h2
          · exact hxB rfl
        · exact Or.inr hfb1

theorem indexOf_lt_of_pair_sublist {A B : β} (hAB : A ≠ B) :
    ∀ {l : List β}, l.Nodup → List.Sublist [A, B] l → l.indexOf A < l.indexOf B := by
  intro l
  induction l with
  | nil => intro _ h; simp at h
  | cons x rest ih =>
    intro hnd h
    by_cases hxA : x = A
    · subst hxA
      rw [List.indexOf_cons_self, List.indexOf_cons_ne _ hAB]
      exact Nat.succ_pos _
    · have h1 : List.Sublist [A, B] rest := by
        cases h with
        | cons _ h2 => exact h2
        | cons₂ _ h2 => exact absurd rfl hxA
      have hxB : x ≠ B := by
        intro h2
        subst h2
        have hBrest : x ∈ rest := h1.subset (by simp)
        exact (List.nodup_cons.mp hnd).1 hBrest
      rw [List.indexOf_cons_ne _ hxA, List.indexOf_cons_ne _ hxB]
      exact Nat.succ_lt_succ (ih (List.nodup_cons.mp hnd).2 h1)

end DedupLemmas

theorem JSRegExp.test_stateless {r : JSRegExp} (hg : r.global = false)
    (hy : r.sticky = false) (input : List Char) :
    r.test input = (r.matches0 input, r) := by
  unfold JSRegExp.test JSRegExp.matches0
  rw [hg, hy]
  simp

theorem filterWithTest_stateless {r : JSRegExp} (hg : r.global = false)
    (hy : r.sticky = false) (l : List (List Char)) :
    filterWithTest r l = (l.filter r.matches0, r) := by
  induction l with
  | nil => rfl
  | cons x rest ih =>
    simp only [filterWithTest, JSRegExp.test_stateless hg hy, ih, List.filter_cons]

theorem countRegisteredEntities_stateless {r : JSRegExp} (hg : r.global = false)
    (hy : r.sticky = false) (p : TestPlatform) :
    countRegisteredEntities p r = ((p.registeredEntities.filter r.matches0).length, r) := by
  unfold countRegisteredEntities
  rw [filterWithTest_stateless hg hy]

theorem listGetD_append_length {α : Type*} (l : List α) (v d : α) :
    (l ++ [v]).getD l.length d = v := by
  induction l with
  | nil => rfl
  | cons x rest ih => simp [ih]

theorem listGetD_append_lt {α : Type*} (l : List α) (v d : α) :
    ∀ r, r < l.length → (l ++ [v]).getD r d = l.getD r d := by
  induction l with
  | nil => intro r hr; exact absurd hr (Nat.not_lt_zero r)
  | cons x rest ih =>
    intro r hr
    cases r with
    | zero => rfl
    | succ r1 => simpa using ih r1 (Nat.lt_of_succ_lt_succ hr)

theorem listGetD_set_ne {α : Type*} (l : List α) (d v : α) :
    ∀ r r1, r ≠ r1 → (l.set r1 v).getD r d = l.getD r d := by
  induction l with
  | nil => intro r r1 _; rfl
  | cons x rest ih =>
    intro r r1 hne
    cases r1 with
    | zero =>
      cases r with
      | zero => exact absurd rfl hne
      | succ r2 => rfl
    | succ r2 =>
      cases r with
      | zero => rfl
      | succ r3 => simpa using ih r3 r2 (fun h => hne (by rw [h]))

/-! ### Claim theorems -/

/-- **C1, counterexample.** In the reachable state `staleRun` (an `up()`, one
mosquitto message, then a completed `down()`), the Environment Handle is
cleared, yet `getMosquittoMessages()` still returns the prior run's message:
`down()` does not reset the Message Log, refuting "every watcher-owned
accumulator is reset to empty". -/
theorem claim_C1_counterexample :
    staleRun.platform.environment = none ∧
    getMosquittoMessages staleRun.platform = ["homeassistant/status online".data] ∧
    getMosquittoMessages staleRun.platform ≠ [] := by
  refine ⟨rfl, ?_, ?_⟩ <;> decide

/-- **C1, amended.** After `down()` completes, the Environment Handle is
cleared and the Registered Entity Set is reset to empty, but the Message Log
is left untouched: reads of it after `down()` still return the prior run's
messages. -/
theorem claim_C1 (w : World) :
    (stepWorld w PlatformEvent.downCalled).platform.environment = none ∧
    (stepWorld w PlatformEvent.downCalled).platform.registeredEntities = [] ∧
    getMosquittoMessages (stepWorld w PlatformEvent.downCalled).platform =
      getMosquittoMessages w.platform :=
  ⟨rfl, rfl, rfl⟩

/-- **C2, counterexample.** A second `up()` while an environment is active does
not fail with `AlreadyRunning`: it starts a second stack (the started-stack
count reaches 2) and silently overwrites the Environment Handle. -/
theorem claim_C2_counterexample :
    (stepWorld initialWorld (PlatformEvent.upCompleted 0)).platform.environment = some 0 ∧
    (stepWorld (stepWorld initialWorld (PlatformEvent.upCompleted 0))
      (PlatformEvent.upCompleted 1)).stacksStarted = 2 ∧
    (stepWorld (stepWorld initialWorld (PlatformEvent.upCompleted 0))
      (PlatformEvent.upCompleted 1)).platform.environment = some 1 := by
  decide

/-- **C2, amended.** `up()` performs no already-running check: a second `up()`
while an environment is active succeeds, starts one more stack, and overwrites
the Environment Handle with the new stack's handle (the previous handle is
dropped without teardown). -/
theorem claim_C2 (w : World) (envId : Nat)
    (hactive : w.platform.environment.isSome = true) :
    (stepWorld w (PlatformEvent.upCompleted envId)).stacksStarted = w.stacksStarted + 1 ∧
    (stepWorld w (PlatformEvent.upCompleted envId)).platform.environment = some envId ∧
    (stepWorld w (PlatformEvent.upCompleted envId)).teardownsPerformed = w.teardownsPerformed :=
  ⟨rfl, rfl, rfl⟩

/-- Witness for C2 at a concrete active world. -/
theorem claim_C2_witness :
    ((stepWorld initialWorld (PlatformEvent.upCompleted 0)).platform.environment.isSome = true) ∧
    ((stepWorld (stepWorld initialWorld (PlatformEvent.upCompleted 0))
        (PlatformEvent.upCompleted 1)).stacksStarted =
      (stepWorld initialWorld (PlatformEvent.upCompleted 0)).stacksStarted + 1 ∧
     (stepWorld (stepWorld initialWorld (PlatformEvent.upCompleted 0))
        (PlatformEvent.upCompleted 1)).platform.environment = some 1 ∧
     (stepWorld (stepWorld initialWorld (PlatformEvent.upCompleted 0))
        (PlatformEvent.upCompleted 1)).teardownsPerformed =
      (stepWorld initialWorld (PlatformEvent.upCompleted 0)).teardownsPerformed) :=
  ⟨by decide, claim_C2 (stepWorld initialWorld (PlatformEvent.upCompleted 0)) 1 (by decide)⟩

/-- **C7, counterexample.** The watcher stores `line.trim()`, which removes
*leading* whitespace as well: the line `" x"` is stored as `"x"`, not as the
claim's trailing-only-trimmed `" x"`. -/
theorem claim_C7_counterexample :
    (stepWorld initialWorld (PlatformEvent.mosquittoLine [' ', 'x'])).platform.mosquittoMessages
      = [['x']] ∧
    jsTrimEnd [' ', 'x'] = [' ', 'x'] ∧
    (stepWorld initialWorld (PlatformEvent.mosquittoLine [' ', 'x'])).platform.mosquittoMessages
      ≠ [jsTrimEnd [' ', 'x']] := by
  refine ⟨?_, ?_, ?_⟩ <;> decide

/-- **C7, amended.** The raw-message watcher stores every incoming line after
`String.prototype.trim` (leading *and* trailing whitespace removed), in
arrival order and with no deduplication: delivering `ls` appends exactly
`ls.map jsTrim`, so repeated identical lines give repeated entries and the log
grows by the number of lines received. -/
theorem claim_C7 (w : World) (ls : List (List Char)) :
    (runEvents w (ls.map PlatformEvent.mosquittoLine)).platform.mosquittoMessages =
      w.platform.mosquittoMessages ++ ls.map jsTrim ∧
    (runEvents w (ls.map PlatformEvent.mosquittoLine)).platform.mosquittoMessages.length =
      w.platform.mosquittoMessages.length + ls.length := by
  rw [runEvents_mqLines]
  exact ⟨rfl, by simp⟩

/-- **C8.** `down()` with no environment running is a no-op and not an error:
it performs no teardown (the teardown count is unchanged) and, when the entity
set is already empty, leaves the state exactly as it was; in particular a
second `down()` immediately after a first changes nothing. -/
theorem claim_C8 (w v : World) (henv : v.platform.environment = none)
    (hreg : v.platform.registeredEntities = []) :
    stepWorld v PlatformEvent.downCalled = v ∧
    stepWorld (stepWorld w PlatformEvent.downCalled) PlatformEvent.downCalled =
      stepWorld w PlatformEvent.downCalled := by
  constructor
  · obtain ⟨⟨e, m, reg⟩, s, t⟩ := v
    simp only at henv hreg
    subst henv
    subst hreg
    simp [stepWorld]
  · obtain ⟨⟨e, m, reg⟩, s, t⟩ := w
    simp [stepWorld]

/-- Witness for C8 at concrete worlds. -/
theorem claim_C8_witness :
    (initialWorld.platform.environment = none) ∧
    (initialWorld.platform.registeredEntities = []) ∧
    (stepWorld initialWorld PlatformEvent.downCalled = initialWorld ∧
     stepWorld (stepWorld staleRun PlatformEvent.downCalled) PlatformEvent.downCalled =
       stepWorld staleRun PlatformEvent.downCalled) :=
  ⟨rfl, rfl, claim_C8 staleRun initialWorld rfl rfl⟩

/-- **C6.** `getMosquittoMessages()` returns a defensive copy: the returned
array is a fresh reference (distinct from the stored Message Log), its
contents equal the log's entries in order, and writing through the returned
reference changes neither the stored log nor the result of a subsequent call. -/
theorem claim_C6 (st : ArrayStore) (msgRef : Nat) (h : msgRef < st.arrays.length)
    (v : List (List Char)) :
    (getMosquittoMessagesAlloc st msgRef).2 ≠ msgRef ∧
    ArrayStore.read (getMosquittoMessagesAlloc st msgRef).1
      (getMosquittoMessagesAlloc st msgRef).2 = st.read msgRef ∧
    ArrayStore.read
      ((getMosquittoMessagesAlloc st msgRef).1.write (getMosquittoMessagesAlloc st msgRef).2 v)
      msgRef = st.read msgRef ∧
    ArrayStore.read
      (getMosquittoMessagesAlloc
        ((getMosquittoMessagesAlloc st msgRef).1.write (getMosquittoMessagesAlloc st msgRef).2 v)
        msgRef).1
      (getMosquittoMessagesAlloc
        ((getMosquittoMessagesAlloc st msgRef).1.write (getMosquittoMessagesAlloc st msgRef).2 v)
        msgRef).2 = st.read msgRef := by
  have hmut : ArrayStore.read
      ((getMosquittoMessagesAlloc st msgRef).1.write (getMosquittoMessagesAlloc st msgRef).2 v)
      msgRef = st.read msgRef := by
    show ((st.arrays ++ [st.read msgRef]).set st.arrays.length v).getD msgRef [] =
      st.arrays.getD msgRef []
    rw [listGetD_set_ne _ _ _ msgRef st.arrays.length (Nat.ne_of_lt h)]
    exact listGetD_append_lt st.arrays _ _ msgRef h
  refine ⟨ne_of_gt h, listGetD_append_length st.arrays _ _, hmut, ?_⟩
  exact (listGetD_append_length
    ((getMosquittoMessagesAlloc st msgRef).1.write (getMosquittoMessagesAlloc st msgRef).2 v).arrays
    _ _).trans hmut

/-- Witness for C6 at a concrete one-array store. -/
theorem claim_C6_witness :
    (0 < demoStore.arrays.length) ∧
    ((getMosquittoMessagesAlloc demoStore 0).2 ≠ 0 ∧
     ArrayStore.read (getMosquittoMessagesAlloc demoStore 0).1
       (getMosquittoMessagesAlloc demoStore 0).2 = demoStore.read 0 ∧
     ArrayStore.read
       ((getMosquittoMessagesAlloc demoStore 0).1.write (getMosquittoMessagesAlloc demoStore 0).2 [])
       0 = demoStore.read 0 ∧
     ArrayStore.read
       (getMosquittoMessagesAlloc
         ((getMosquittoMessagesAlloc demoStore 0).1.write (getMosquittoMessagesAlloc demoStore 0).2 [])
         0).1
       (getMosquittoMessagesAlloc
         ((getMosquittoMessagesAlloc demoStore 0).1.write (getMosquittoMessagesAlloc demoStore 0).2 [])
         0).2 = demoStore.read 0) :=
  ⟨by decide, claim_C6 demoStore 0 (by decide) []⟩

/-- **C10.** The entity-registration rule deduplicates by identifier alone:
when the regex captures `(kind, name)` from a line, the line is ignored
entirely whenever `name` is already registered — whatever `kind` is — and the
resulting state is fully determined by `name`, never by the captured kind. -/
theorem claim_C10 (entities : List (List Char)) (line : List Char)
    (kind name : List Char)
    (h : entityRegistryExec (jsTrim line) = some (kind, name)) :
    (name ∈ entities → onHomeAssistantLine entities line = entities) ∧
    onHomeAssistantLine entities line =
      (if name ∈ entities then entities else entities ++ [name]) := by
  have h2 : onHomeAssistantLine entities line = insertNew entities name := by
    rw [onHomeAssistantLine_eq, extractedEntity, h]
    rfl
  constructor
  · intro hmem
    rw [h2, insertNew, if_pos hmem]
  · rw [h2]
    by_cases hmem : name ∈ entities <;> simp [insertNew, hmem]

/-- Witness for C10: `foo.bar` is already registered (first seen with kind
`sensor`); a later line with a different kind `binary_sensor` but the same
identifier leaves the set unchanged. -/
theorem claim_C10_witness :
    (entityRegistryExec (jsTrim (regLine "binary_sensor" "foo.bar")) =
      some ("binary_sensor".data, "foo.bar".data)) ∧
    (("foo.bar".data ∈ ["foo.bar".data] →
        onHomeAssistantLine ["foo.bar".data] (regLine "binary_sensor" "foo.bar") =
          ["foo.bar".data]) ∧
     onHomeAssistantLine ["foo.bar".data] (regLine "binary_sensor" "foo.bar") =
       (if "foo.bar".data ∈ ["foo.bar".data] then ["foo.bar".data]
        else ["foo.bar".data] ++ ["foo.bar".data])) :=
  ⟨by decide,
   claim_C10 ["foo.bar".data] (regLine "binary_sensor" "foo.bar")
     "binary_sensor".data "foo.bar".data (by decide)⟩

/-- **C9.** For a pattern without the `global` or `sticky` flag,
`countRegisteredEntities` does not mutate the pattern's state, so two
consecutive calls on the same entity set return equal counts (the test of each
entry is independent of the others). -/
theorem claim_C9 (p : TestPlatform) (r : JSRegExp) (hg : r.global = false)
    (hy : r.sticky = false) :
    (countRegisteredEntities p r).2 = r ∧
    (countRegisteredEntities p ((countRegisteredEntities p r).2)).1 =
      (countRegisteredEntities p r).1 := by
  have h1 : (countRegisteredEntities p r).2 = r := by
    rw [countRegisteredEntities_stateless hg hy]
  exact ⟨h1, by rw [h1]⟩

/-- Witness for C9 at a concrete platform and the flagless `/^sensor\.rika_/`. -/
theorem claim_C9_witness :
    (rikaPattern.global = false) ∧ (rikaPattern.sticky = false) ∧
    ((countRegisteredEntities c9Platform rikaPattern).2 = rikaPattern ∧
     (countRegisteredEntities c9Platform ((countRegisteredEntities c9Platform rikaPattern).2)).1 =
       (countRegisteredEntities c9Platform rikaPattern).1) :=
  ⟨rfl, rfl, claim_C9 c9Platform rikaPattern rfl rfl⟩

theorem beq_lists_eq_decide (x A : List Char) : (x == A) = decide (x = A) := by
  by_cases h : x = A <;> simp [h]

theorem indexOf_beq_decide (A : List Char) : ∀ l : List (List Char),
    @List.indexOf (List Char) List.instBEq A l =
      @List.indexOf (List Char) instBEqOfDecidableEq A l := by
  intro l
  induction l with
  | nil => rfl
  | cons x rest ih =>
    rw [List.indexOf_cons, @List.indexOf_cons (List Char) x rest A instBEqOfDecidableEq,
      beq_lists_eq_decide, ih]
    rfl

/-- **C3.** After processing any sequence of lines, the Registered Entity Set's
size equals the number of distinct identifiers extracted from matching lines;
for any flagless pattern, `countRegisteredEntities` returns the exact count of
distinct extracted identifiers matching it, returns 0 on the fresh platform,
and returns 0 as long as no extracted identifier matches the pattern. -/
theorem claim_C3 (ls : List (List Char)) (r : JSRegExp) (hg : r.global = false)
    (hy : r.sticky = false) :
    (registeredAfter ls).length = (extractedNames ls).toFinset.card ∧
    (countRegisteredEntities (platformAfter ls) r).1 =
      ((extractedNames ls).toFinset.filter (fun n => r.matches0 n = true)).card ∧
    (countRegisteredEntities initialTestPlatform r).1 = 0 ∧
    ((extractedNames ls).all (fun n => !(r.matches0 n)) = true →
      (countRegisteredEntities (platformAfter ls) r).1 = 0) := by
  have hents : registeredAfter ls = accumulate [] (extractedNames ls) :=
    registeredAfter_eq ls
  have hnodup : (accumulate [] (extractedNames ls)).Nodup :=
    nodup_accumulate List.nodup_nil
  have htofin : (accumulate [] (extractedNames ls)).toFinset = (extractedNames ls).toFinset := by
    ext y
    simp only [List.mem_toFinset]
    rw [mem_accumulate]
    simp
  have hcount : (countRegisteredEntities (platformAfter ls) r).1 =
      ((extractedNames ls).toFinset.filter (fun n => r.matches0 n = true)).card := by
    rw [countRegisteredEntities_stateless hg hy]
    show ((platformAfter ls).registeredEntities.filter r.matches0).length = _
    rw [platformAfter_registeredEntities, hents,
      ← List.toFinset_card_of_nodup (hnodup.filter r.matches0),
      List.toFinset_filter, htofin]
  refine ⟨?_, hcount, rfl, ?_⟩
  · rw [hents, ← htofin, List.toFinset_card_of_nodup hnodup]
  · intro hall
    rw [hcount]
    rw [Finset.card_eq_zero]
    apply Finset.filter_false_of_mem
    intro x hx
    have hxm : x ∈ extractedNames ls := List.mem_toFinset.mp hx
    have := List.all_eq_true.mp hall x hxm
    simp only [Bool.not_eq_true'] at this
    simp [this]

/-- Witness for C3 at concrete lines (one duplicated identifier, one
non-matching identifier) and the flagless `/^sensor\.rika_/`. -/
theorem claim_C3_witness :
    (rikaPattern.global = false) ∧ (rikaPattern.sticky = false) ∧
    ((registeredAfter c3Lines).length = (extractedNames c3Lines).toFinset.card ∧
     (countRegisteredEntities (platformAfter c3Lines) rikaPattern).1 =
       ((extractedNames c3Lines).toFinset.filter (fun n => rikaPattern.matches0 n = true)).card ∧
     (countRegisteredEntities initialTestPlatform rikaPattern).1 = 0 ∧
     ((extractedNames c3Lines).all (fun n => !(rikaPattern.matches0 n)) = true →
       (countRegisteredEntities (platformAfter c3Lines) rikaPattern).1 = 0)) :=
  ⟨rfl, rfl, claim_C3 c3Lines rikaPattern rfl rfl⟩

/-- **C4.** First-seen insertion order: if identifier `A`'s first matching
line precedes identifier `B`'s first matching line, then `A` appears before
`B` in the Registered Entity Set's iteration order (regardless of later
duplicates); moreover no event other than `down()` ever removes or reorders an
existing entry — the previous entity list is always a prefix of the new one. -/
theorem claim_C4 (ls : List (List Char)) (A B : List Char) (w : World)
    (e : PlatformEvent) (hAB : A ≠ B)
    (hA : A ∈ extractedNames ls) (hB : B ∈ extractedNames ls)
    (horder : (extractedNames ls).indexOf A < (extractedNames ls).indexOf B)
    (he : e ≠ PlatformEvent.downCalled) :
    List.Sublist [A, B] (registeredAfter ls) ∧
    (registeredAfter ls).indexOf A < (registeredAfter ls).indexOf B ∧
    w.platform.registeredEntities <+: (stepWorld w e).platform.registeredEntities := by
  rw [indexOf_beq_decide, indexOf_beq_decide] at horder
  have hfb := firstBefore_of_indexOf hAB hA hB horder
  have hsub : List.Sublist [A, B] (accumulate [] (extractedNames ls)) :=
    accumulate_pair_sublist hAB (extractedNames ls) [] (by simp) (Or.inr hfb)
  have hnd : (accumulate [] (extractedNames ls)).Nodup :=
    nodup_accumulate List.nodup_nil
  refine ⟨by rw [registeredAfter_eq]; exact hsub,
    ?_, ?_⟩
  · rw [registeredAfter_eq, indexOf_beq_decide, indexOf_beq_decide]
    exact indexOf_lt_of_pair_sublist hAB hnd hsub
  cases e with
  | upCompleted envId => exact List.prefix_rfl
  | downCalled => exact absurd rfl he
  | homeAssistantLine line =>
    show w.platform.registeredEntities <+:
      onHomeAssistantLine w.platform.registeredEntities line
    rw [onHomeAssistantLine_eq]
    cases hx : extractedEntity line with
    | none => exact List.prefix_rfl
    | some n => exact accumulate_extends [n] w.platform.registeredEntities
  | mosquittoLine line => exact List.prefix_rfl

/-- Witness for C4: `sensor.rika_b` is first seen before `sensor.rika_a` in
`c4Lines` and is later duplicated; a mosquitto line is a non-`down()` event. -/
theorem claim_C4_witness :
    ("sensor.rika_b".data ≠ "sensor.rika_a".data) ∧
    ("sensor.rika_b".data ∈ extractedNames c4Lines) ∧
    ("sensor.rika_a".data ∈ extractedNames c4Lines) ∧
    ((extractedNames c4Lines).indexOf "sensor.rika_b".data <
      (extractedNames c4Lines).indexOf "sensor.rika_a".data) ∧
    (PlatformEvent.mosquittoLine [] ≠ PlatformEvent.downCalled) ∧
    (List.Sublist ["sensor.rika_b".data, "sensor.rika_a".data] (registeredAfter c4Lines) ∧
     (registeredAfter c4Lines).indexOf "sensor.rika_b".data <
       (registeredAfter c4Lines).indexOf "sensor.rika_a".data ∧
     staleRun.platform.registeredEntities <+:
       (stepWorld staleRun (PlatformEvent.mosquittoLine [])).platform.registeredEntities) :=
  ⟨by decide, by decide, by decide, by decide, by decide,
   claim_C4 c4Lines "sensor.rika_b".data "sensor.rika_a".data staleRun
     (PlatformEvent.mosquittoLine []) (by decide) (by decide) (by decide)
     (by decide) (by decide)⟩

/-- **C5.** The spec's scenario: registration lines for `sensor.rika_a` …
`sensor.rika_l` with `sensor.rika_a` logged twice; afterwards
`countRegisteredEntities(/^sensor\.rika_/)` returns exactly 12. -/
theorem claim_C5 :
    (countRegisteredEntities (platformAfter rikaScenarioLines) rikaPattern).1 = 12 := by
  decide
